import Mathlib

/-!
Verification of `memory_notation.h` and of the static ownership verifier its
annotations imply.

Part 1 embeds the C header itself: each `#define` becomes a `HeaderDef`
record (name, optional parameter list, replacement token list), macro
expansion is token substitution, and the include guard becomes a function on
preprocessor states.

Part 2 models the ownership verifier core described by the specification
(the verifier's code is not part of the repository's sources; the
definitions carry `Modelled from the spec:` doc comments).
-/

namespace MemNotation

/-- A C preprocessor macro definition: its name, its parameter list
(`none` for an object-like macro), and its replacement token list. -/
structure HeaderDef where
  name : String
  params : Option (List String)
  body : List String
deriving DecidableEq, Repr

/-- Index of a token in a macro's parameter list, if it is a parameter. -/
def paramIndex (ps : List String) (t : String) : Option Nat :=
  match ps with
  | [] => none
  | p :: rest => if p = t then some 0 else (paramIndex rest t).map (· + 1)

/-- Substitute one body token: a parameter name is replaced by the
corresponding argument's token list, any other token stands for itself. -/
def substTok (ps : List String) (args : List (List String)) (t : String) : List String :=
  match paramIndex ps t with
  | some i => args.getD i []
  | none => [t]

/-- Expansion of a macro at an argument list: an object-like macro expands to
its body, a function-like macro substitutes each argument for its parameter. -/
def HeaderDef.expand (m : HeaderDef) (args : List (List String)) : List String :=
  match m.params with
  | none => m.body
  | some ps => (m.body.map (substTok ps args)).flatten

/-- Line 46 of the header: `#define memory_guarded` (empty body). -/
def memory_guarded_def : HeaderDef := ⟨"memory_guarded", none, []⟩

/-- Line 47 of the header: `#define memory_owner` (empty body). -/
def memory_owner_def : HeaderDef := ⟨"memory_owner", none, []⟩

/-- Line 48 of the header: `#define memory_take_possession` (empty body). -/
def memory_take_possession_def : HeaderDef := ⟨"memory_take_possession", none, []⟩

/-- Line 49 of the header: `#define memory_keep_alive` (empty body). -/
def memory_keep_alive_def : HeaderDef := ⟨"memory_keep_alive", none, []⟩

/-- Line 50 of the header: `#define memory_release_after_of(mem)` (empty body). -/
def memory_release_after_of_def : HeaderDef := ⟨"memory_release_after_of", some ["mem"], []⟩

/-- Line 51 of the header: `#define memory_owner_of(mem)` (empty body). -/
def memory_owner_of_def : HeaderDef := ⟨"memory_owner_of", some ["mem"], []⟩

/-- Line 52 of the header: `#define memory_ref_count` (empty body). -/
def memory_ref_count_def : HeaderDef := ⟨"memory_ref_count", none, []⟩

/-- Line 53 of the header: `#define memory_ptr_inout` (empty body). -/
def memory_ptr_inout_def : HeaderDef := ⟨"memory_ptr_inout", none, []⟩

/-- Line 54 of the header: `#define memory_ptr_out` (empty body). -/
def memory_ptr_out_def : HeaderDef := ⟨"memory_ptr_out", none, []⟩

/-- Line 56 of the header: `#define m_g` (empty body). -/
def m_g_def : HeaderDef := ⟨"m_g", none, []⟩

/-- Line 57 of the header: `#define m_o` (empty body). -/
def m_o_def : HeaderDef := ⟨"m_o", none, []⟩

/-- Line 58 of the header: `#define m_t` (empty body). -/
def m_t_def : HeaderDef := ⟨"m_t", none, []⟩

/-- Line 59 of the header: `#define m_o_(mem)` (empty body). -/
def m_o__def : HeaderDef := ⟨"m_o_", some ["mem"], []⟩

/-- Line 60 of the header: `#define m_rc` (empty body). -/
def m_rc_def : HeaderDef := ⟨"m_rc", none, []⟩

/-- Line 61 of the header: `#define m_io` (empty body). -/
def m_io_def : HeaderDef := ⟨"m_io", none, []⟩

/-- Line 62 of the header: `#define m_out` (empty body). -/
def m_out_def : HeaderDef := ⟨"m_out", none, []⟩

/-- Line 64 of the header: `#define memory_cleanup_(f) __attribute__((cleanup(f)))`. -/
def memory_cleanup__def : HeaderDef :=
  ⟨"memory_cleanup_", some ["f"],
   ["__attribute__", "(", "(", "cleanup", "(", "f", ")", ")", ")"]⟩

/-- Line 44 of the header: `#define __MEMORY_NOTATION_H__` (the include guard). -/
def guardDef : HeaderDef := ⟨"__MEMORY_NOTATION_H__", none, []⟩

/-- The nine long-form annotation macros of the header (lines 46 to 54). -/
def annotationDefs : List HeaderDef :=
  [memory_guarded_def, memory_owner_def, memory_take_possession_def,
   memory_keep_alive_def, memory_release_after_of_def, memory_owner_of_def,
   memory_ref_count_def, memory_ptr_inout_def, memory_ptr_out_def]

/-- The seven object-like long-form annotation macros (all but the two
argument-taking ones). -/
def annotationObjDefs : List HeaderDef :=
  [memory_guarded_def, memory_owner_def, memory_take_possession_def,
   memory_keep_alive_def, memory_ref_count_def, memory_ptr_inout_def,
   memory_ptr_out_def]

/-- Every macro the header defines, in source order: the include guard, the
nine long forms, the seven short forms, and the cleanup macro. -/
def allHeaderDefs : List HeaderDef :=
  guardDef ::
  [memory_guarded_def, memory_owner_def, memory_take_possession_def,
   memory_keep_alive_def, memory_release_after_of_def, memory_owner_of_def,
   memory_ref_count_def, memory_ptr_inout_def, memory_ptr_out_def,
   m_g_def, m_o_def, m_t_def, m_o__def, m_rc_def, m_io_def, m_out_def,
   memory_cleanup__def]

/-- First macro of a definition list whose name is a given token. -/
def lookupObjDef (ds : List HeaderDef) (t : String) : Option HeaderDef :=
  ds.find? (fun d => d.name == t)

/-- One pass of object-like macro expansion over a token stream: each token
naming an object-like macro of the list is replaced by that macro's body. -/
def expandTokensOnce (ds : List HeaderDef) (ts : List String) : List String :=
  (ts.map (fun t =>
    match lookupObjDef ds t with
    | some d => match d.params with
      | none => d.body
      | some _ => [t]
    | none => [t])).flatten

/-- A preprocessor state: the macro definitions accumulated so far. -/
structure PPState where
  defs : List HeaderDef
deriving DecidableEq, Repr

/-- Whether a macro of the given name is defined in the state. -/
def isDefined (s : PPState) (n : String) : Bool :=
  s.defs.any (fun d => d.name == n)

/-- Effect of `#include "memory_notation.h"` on a preprocessor state,
translated from the header's structure: the `#ifndef __MEMORY_NOTATION_H__`
guard makes the inclusion a no-op when the guard is already defined,
otherwise the guard and all seventeen macros are defined. -/
def includeHeader (s : PPState) : PPState :=
  if isDefined s "__MEMORY_NOTATION_H__" then s
  else ⟨s.defs ++ allHeaderDefs⟩

/-- Modelled from the spec: statements of a lexical scope whose variable
declarations may carry the expanded `memory_cleanup_` attribute. The
compiler semantics of `__attribute__((cleanup(f)))` is not part of the
repository's sources; the spec describes it as deterministic release
regardless of exit path. `declCleanup v f` declares variable `v` with
cleanup handler `f`, `call g` calls `g`, `ret` is an early return. -/
inductive CStmt where
  | declCleanup (v f : String)
  | declPlain (v : String)
  | call (g : String)
  | ret
deriving DecidableEq, Repr

/-- Modelled from the spec: running a scope body returns the sequence of
function calls performed, with every pending cleanup handler invoked when
control leaves the scope, whether by falling off the end or by an early
return. The second argument is the stack of pending cleanup handlers. -/
def runScope : List CStmt → List String → List String
  | [], cl => cl
  | CStmt.declCleanup _ f :: rest, cl => runScope rest (f :: cl)
  | CStmt.declPlain _ :: rest, cl => runScope rest cl
  | CStmt.call g :: rest, cl => g :: runScope rest cl
  | CStmt.ret :: _, cl => cl

/-- Modelled from the spec: the set of tags attachable to a pointer-typed
entity (spec section 3, AnnotationKind). -/
inductive AnnotationKind where
  | Guarded
  | Owner
  | TakePossession
  | KeepAlive
  | ReleaseAfterOf (mem : String)
  | OwnerOf (mem : String)
  | RefCounted
  | PtrInOut
  | PtrOut
deriving DecidableEq, Repr

/-- Modelled from the spec: the per-path ownership state of a binding
(spec section 3, OwnershipState). -/
inductive OwnershipState where
  | Uninitialized
  | Borrowed
  | Owned
  | Moved
  | Released
  | RefCountedLive
deriving DecidableEq, Repr

/-- Modelled from the spec: the verifier's error taxonomy (spec section 7). -/
inductive ErrorKind where
  | ConflictingAnnotationKind
  | InvalidRelease
  | UseAfterTransfer
  | LeakedOwnership
  | UseAfterRelease
  | RefCountUnderflow
  | BorrowEscalation
  | UnstableLoopOwnership
  | UnresolvableRecursiveContract
deriving DecidableEq, Repr

/-- Modelled from the spec: diagnostic severity (spec section 6). -/
inductive Severity where
  | error
  | warning
deriving DecidableEq, Repr

/-- Modelled from the spec: a diagnostic record `{severity, rule, binding,
path}` (spec section 6; the location field is subsumed by the path id). -/
structure Diagnostic where
  severity : Severity
  rule : ErrorKind
  binding : String
  pathId : Nat
deriving DecidableEq, Repr

/-- Builds an error-severity diagnostic. -/
def mkErr (r : ErrorKind) (b : String) (p : Nat) : Diagnostic :=
  ⟨Severity.error, r, b, p⟩

/-- Modelled from the spec: the operations on bindings that the transition
table of spec section 4.3 distinguishes along one exit path. -/
inductive Op where
  | release (b : String)
  | passTakePossession (b : String)
  | use (b : String)
  | assignToOwnerField (b : String)
  | incRef (b : String)
  | decRef (b : String)
deriving DecidableEq, Repr

/-- Modelled from the spec: one exit path of a function body - a path
identifier (a scope-identifier sequence collapsed to a number) and the
ordered operations performed from function entry to that exit edge. -/
structure ExitPath where
  pathId : Nat
  ops : List Op
deriving DecidableEq, Repr

/-- Modelled from the spec: a function declaration given to the checker -
its name, its parameters with their declared AnnotationKind, and the exit
paths the Scope Graph Builder enumerated for its body. -/
structure FnDecl where
  name : String
  params : List (String × AnnotationKind)
  paths : List ExitPath
deriving DecidableEq, Repr

/-- Declared kind of a binding, read off the parameter list. -/
def kindOf (params : List (String × AnnotationKind)) (b : String) :
    Option AnnotationKind :=
  params.lookup b

/-- Modelled from the spec: the state a binding starts in at function entry,
from its declared kind - a `Guarded` binding is borrowed, an `Owner` or
`TakePossession` binding starts owned, a `RefCounted` binding starts live. -/
def initStateOf (k : AnnotationKind) : OwnershipState :=
  match k with
  | AnnotationKind.Guarded => OwnershipState.Borrowed
  | AnnotationKind.Owner => OwnershipState.Owned
  | AnnotationKind.TakePossession => OwnershipState.Owned
  | AnnotationKind.KeepAlive => OwnershipState.Borrowed
  | AnnotationKind.ReleaseAfterOf _ => OwnershipState.Borrowed
  | AnnotationKind.OwnerOf _ => OwnershipState.Owned
  | AnnotationKind.RefCounted => OwnershipState.RefCountedLive
  | AnnotationKind.PtrInOut => OwnershipState.Borrowed
  | AnnotationKind.PtrOut => OwnershipState.Borrowed

/-- States of all bindings at function entry. -/
def initState (params : List (String × AnnotationKind)) :
    String → OwnershipState :=
  fun x =>
    match params.lookup x with
    | some k => initStateOf k
    | none => OwnershipState.Uninitialized

/-- Pointwise update of a state map. -/
def updState (st : String → OwnershipState) (b : String) (s : OwnershipState) :
    String → OwnershipState :=
  fun x => if x = b then s else st x

/-- Pointwise increment of a reference-count delta map. -/
def updDelta (d : String → Int) (b : String) (n : Int) : String → Int :=
  fun x => if x = b then d x + n else d x

/-- Modelled from the spec: the per-path analysis state - each binding's
OwnershipState and each binding's reference-count delta relative to entry. -/
structure PathSt where
  state : String → OwnershipState
  delta : String → Int

/-- The analysis state at function entry. -/
def initPathSt (params : List (String × AnnotationKind)) : PathSt :=
  ⟨initState params, fun _ => 0⟩

/-- Modelled from the spec: the transition table of spec section 4.3 for one
operation. Releasing a `Guarded` binding, or one already `Released` or
`Moved`, reports `InvalidRelease`; releasing an `Owned` binding moves it to
`Released`. Passing a binding as a `TakePossession` argument moves `Owned`
to `Moved`; using a `Moved` binding reports `UseAfterTransfer` and using a
`Released` one reports `UseAfterRelease`. Assigning to an owner field moves
`Owned` to `Moved`. Increments and decrements adjust the integer delta. -/
def stepOp (params : List (String × AnnotationKind)) (pid : Nat) (s : PathSt)
    (op : Op) : PathSt × List Diagnostic :=
  match op with
  | Op.release b =>
    if kindOf params b = some AnnotationKind.Guarded then
      (s, [mkErr ErrorKind.InvalidRelease b pid])
    else
      match s.state b with
      | OwnershipState.Released => (s, [mkErr ErrorKind.InvalidRelease b pid])
      | OwnershipState.Moved => (s, [mkErr ErrorKind.InvalidRelease b pid])
      | OwnershipState.Owned =>
        ({ s with state := updState s.state b OwnershipState.Released }, [])
      | _ => (s, [])
  | Op.passTakePossession b =>
    match s.state b with
    | OwnershipState.Owned =>
      ({ s with state := updState s.state b OwnershipState.Moved }, [])
    | OwnershipState.Moved => (s, [mkErr ErrorKind.UseAfterTransfer b pid])
    | OwnershipState.Released => (s, [mkErr ErrorKind.UseAfterRelease b pid])
    | _ => (s, [])
  | Op.use b =>
    match s.state b with
    | OwnershipState.Moved => (s, [mkErr ErrorKind.UseAfterTransfer b pid])
    | OwnershipState.Released => (s, [mkErr ErrorKind.UseAfterRelease b pid])
    | _ => (s, [])
  | Op.assignToOwnerField b =>
    match s.state b with
    | OwnershipState.Owned =>
      ({ s with state := updState s.state b OwnershipState.Moved }, [])
    | _ => (s, [])
  | Op.incRef b => ({ s with delta := updDelta s.delta b 1 }, [])
  | Op.decRef b => ({ s with delta := updDelta s.delta b (-1) }, [])

/-- Symbolic replay of the operations of one exit path, accumulating
diagnostics in program order. -/
def runOps (params : List (String × AnnotationKind)) (pid : Nat) :
    PathSt → List Op → PathSt × List Diagnostic
  | s, [] => (s, [])
  | s, op :: rest =>
    let r1 := stepOp params pid s op
    let r2 := runOps params pid r1.1 rest
    (r2.1, r1.2 ++ r2.2)

/-- Modelled from the spec: at an exit edge, every binding whose declared
kind is `Owner` and whose state is still `Owned` (not transferred, not
released) is reported as `LeakedOwnership` naming that path. -/
def leakDiags (params : List (String × AnnotationKind)) (pid : Nat)
    (st : String → OwnershipState) : List Diagnostic :=
  params.filterMap (fun p =>
    match p.2, st p.1 with
    | AnnotationKind.Owner, OwnershipState.Owned =>
      some (mkErr ErrorKind.LeakedOwnership p.1 pid)
    | _, _ => none)

/-- Modelled from the spec: a `RefCounted` binding whose net
increment/decrement delta on the path is negative is reported as
`RefCountUnderflow`. -/
def underflowDiags (params : List (String × AnnotationKind)) (pid : Nat)
    (dl : String → Int) : List Diagnostic :=
  params.filterMap (fun p =>
    match p.2 with
    | AnnotationKind.RefCounted =>
      if dl p.1 < 0 then some (mkErr ErrorKind.RefCountUnderflow p.1 pid)
      else none
    | _ => none)

/-- Modelled from the spec: checking one exit path - replay its operations
from the entry state, then apply the exit-edge checks. -/
def checkPath (params : List (String × AnnotationKind)) (p : ExitPath) :
    List Diagnostic :=
  let r := runOps params p.pathId (initPathSt params) p.ops
  r.2 ++ leakDiags params p.pathId r.1.state
      ++ underflowDiags params p.pathId r.1.delta

/-- Modelled from the spec: the intraprocedural checker - every exit path of
the function is checked, and all violating paths are reported, in path
order. -/
def checkFunction (F : FnDecl) : List Diagnostic :=
  (F.paths.map (checkPath F.params)).flatten

/-- Modelled from the spec: one call site for the interprocedural checker -
a site identifier, the callee name, the actual arguments with their
caller-side AnnotationKind, and the callee's declared formal parameter
kinds, in positional order. -/
structure CallSite where
  callSiteId : Nat
  callee : String
  actuals : List (String × AnnotationKind)
  formals : List AnnotationKind
deriving DecidableEq, Repr

/-- Modelled from the spec: unifying actual-argument kinds against the
callee's contract - a `Guarded` actual passed to a `TakePossession` formal
is reported as `BorrowEscalation`, at whatever argument position. -/
def checkCallSite (c : CallSite) : List Diagnostic :=
  (c.actuals.zip c.formals).filterMap (fun q =>
    match q.1.2, q.2 with
    | AnnotationKind.Guarded, AnnotationKind.TakePossession =>
      some (mkErr ErrorKind.BorrowEscalation q.1.1 c.callSiteId)
    | _, _ => none)

/-- Modelled from the spec: one compilation unit's worth of input to the
verifier - the annotated function declarations and the call sites. -/
structure VerifierInput where
  functions : List FnDecl
  calls : List CallSite
deriving DecidableEq, Repr

/-- Modelled from the spec: the whole verifier run - the intraprocedural
diagnostics of every function followed by the interprocedural call-site
diagnostics, in input order. -/
def runVerifier (i : VerifierInput) : List Diagnostic :=
  (i.functions.map checkFunction).flatten ++ (i.calls.map checkCallSite).flatten

/-- Whether a diagnostic has error severity. -/
def isErrorDiag (d : Diagnostic) : Bool :=
  d.severity == Severity.error

/-- Modelled from the spec: the process exit status - non-zero exactly when
an error-severity diagnostic was produced. -/
def exitStatus (ds : List Diagnostic) : Nat :=
  if ds.any isErrorDiag then 1 else 0

/-- Rule name of an error kind, for diagnostic rendering. -/
def renderErrorKind : ErrorKind → String
  | ErrorKind.ConflictingAnnotationKind => "ConflictingAnnotationKind"
  | ErrorKind.InvalidRelease => "InvalidRelease"
  | ErrorKind.UseAfterTransfer => "UseAfterTransfer"
  | ErrorKind.LeakedOwnership => "LeakedOwnership"
  | ErrorKind.UseAfterRelease => "UseAfterRelease"
  | ErrorKind.RefCountUnderflow => "RefCountUnderflow"
  | ErrorKind.BorrowEscalation => "BorrowEscalation"
  | ErrorKind.UnstableLoopOwnership => "UnstableLoopOwnership"
  | ErrorKind.UnresolvableRecursiveContract => "UnresolvableRecursiveContract"

/-- Severity name, for diagnostic rendering. -/
def renderSeverity : Severity → String
  | Severity.error => "error"
  | Severity.warning => "warning"

/-- Byte rendering of one diagnostic record. -/
def renderDiagnostic (d : Diagnostic) : String :=
  renderSeverity d.severity ++ ": " ++ renderErrorKind d.rule ++
    " binding=" ++ d.binding ++ " path=" ++ toString d.pathId ++ "\n"

/-- The diagnostic output bytes of one verifier run. -/
def renderRun (i : VerifierInput) : String :=
  String.join ((runVerifier i).map renderDiagnostic)

/-- Contribution of one operation to a binding's reference-count delta. -/
def opDeltaB (b : String) : Op → Int
  | Op.incRef c => if c = b then 1 else 0
  | Op.decRef c => if c = b then -1 else 0
  | _ => 0

/-- Net increment/decrement balance of one binding over a list of
operations, as an integer. -/
def netDelta (b : String) : List Op → Int
  | [] => 0
  | op :: rest => opDeltaB b op + netDelta b rest

/-- Whether an operation can move the given binding out of the `Owned`
state (release, ownership transfer at a call, or assignment into an
owner field). -/
def consumesB (b : String) : Op → Bool
  | Op.release c => c == b
  | Op.passTakePossession c => c == b
  | Op.assignToOwnerField c => c == b
  | _ => false

/-! Helper lemmas about the header model. -/

/-- Finding no object-like macro for a token means no definition in the list
bears the token as its name. -/
theorem lookupObjDef_none_iff (ds : List HeaderDef) (t : String) :
    lookupObjDef ds t = none ↔ t ∉ ds.map HeaderDef.name := by
  simp only [lookupObjDef, List.find?_eq_none, beq_iff_eq, List.mem_map]
  constructor
  · rintro h ⟨d, hd, rfl⟩
    exact h d hd rfl
  · rintro h d hd rfl
    exact h ⟨d, hd, rfl⟩

/-- One expansion pass over a token stream with a list of object-like,
empty-bodied macros erases exactly the tokens naming those macros. -/
theorem expandTokensOnce_erases (ds : List HeaderDef)
    (h : ∀ d ∈ ds, d.params = none ∧ d.body = ([] : List String))
    (ts : List String) :
    expandTokensOnce ds ts =
      ts.filter (fun t => decide (t ∉ ds.map HeaderDef.name)) := by
  induction ts with
  | nil => rfl
  | cons t rest ih =>
    simp only [expandTokensOnce, List.map_cons, List.flatten_cons] at ih ⊢
    rcases hfind : lookupObjDef ds t with _ | d
    · have ht : ∀ x ∈ ds, ¬ x.name = t := by
        intro x hx hxt
        exact ((lookupObjDef_none_iff ds t).1 hfind) (List.mem_map.2 ⟨x, hx, hxt⟩)
      simp [List.filter_cons, ih]
      rw [if_pos ht]
    · have hd : d ∈ ds := List.mem_of_find?_eq_some hfind
      have hname : d.name = t := by
        have := List.find?_some hfind
        simpa [beq_iff_eq] using this
      have hcond : ¬ (∀ x ∈ ds, ¬ x.name = t) := by
        push_neg
        exact ⟨d, hd, hname⟩
      rcases h d hd with ⟨hp, hb⟩
      simp [hp, hb, List.filter_cons, ih]
      rw [if_neg hcond]

/-- Pending cleanup handlers survive the rest of the scope: whatever
statements remain, every registered handler appears among the calls made. -/
theorem mem_runScope_pending (post : List CStmt) (cl : List String)
    (f : String) (hf : f ∈ cl) : f ∈ runScope post cl := by
  induction post generalizing cl with
  | nil => exact hf
  | cons s rest ih =>
    cases s with
    | declCleanup v g => exact ih (g :: cl) (List.mem_cons_of_mem g hf)
    | declPlain v => exact ih cl hf
    | call g => exact List.mem_cons_of_mem g (ih cl hf)
    | ret => exact hf

/-- A cleanup handler registered before any early return is invoked on every
exit of the scope, whatever the continuation does. -/
theorem runScope_cleanup (pre post : List CStmt) (v f : String)
    (hpre : ∀ s ∈ pre, s ≠ CStmt.ret) (cl : List String) :
    f ∈ runScope (pre ++ CStmt.declCleanup v f :: post) cl := by
  induction pre generalizing cl with
  | nil => exact mem_runScope_pending post (f :: cl) f (List.mem_cons_self f cl)
  | cons s rest ih =>
    have hrest : ∀ t ∈ rest, t ≠ CStmt.ret := fun t ht =>
      hpre t (List.mem_cons_of_mem s ht)
    cases s with
    | declCleanup w g => exact ih hrest (g :: cl)
    | declPlain w => exact ih hrest cl
    | call g => exact List.mem_cons_of_mem g (ih hrest cl)
    | ret => exact absurd rfl (hpre CStmt.ret (List.mem_cons_self CStmt.ret rest))

/-! Claim theorems about the header itself. -/

/-- Claim C1: every annotation macro of the header (memory_guarded,
memory_owner, memory_take_possession, memory_keep_alive,
memory_release_after_of(mem), memory_owner_of(mem), memory_ref_count,
memory_ptr_inout, memory_ptr_out) expands to the empty token sequence, for
every argument list, so expanding the annotations in a token stream erases
exactly the annotation tokens and annotated source compiles identically to
unannotated source. -/
theorem annotations_expand_to_nothing (args : List (List String))
    (ts : List String) :
    memory_guarded_def.expand args = [] ∧
    memory_owner_def.expand args = [] ∧
    memory_take_possession_def.expand args = [] ∧
    memory_keep_alive_def.expand args = [] ∧
    memory_release_after_of_def.expand args = [] ∧
    memory_owner_of_def.expand args = [] ∧
    memory_ref_count_def.expand args = [] ∧
    memory_ptr_inout_def.expand args = [] ∧
    memory_ptr_out_def.expand args = [] ∧
    expandTokensOnce annotationObjDefs ts =
      ts.filter (fun t => decide (t ∉ annotationObjDefs.map HeaderDef.name)) :=
  ⟨rfl, rfl, rfl, rfl, rfl, rfl, rfl, rfl, rfl,
   expandTokensOnce_erases annotationObjDefs (by decide) ts⟩

/-- Claim C2: memory_cleanup_(f) expands to __attribute__((cleanup(f))) for
every argument f; it is the only macro of the header with a non-empty
expansion; and under the cleanup semantics the handler f of a variable
declared with it is invoked on every exit path from the variable's lexical
scope (normal fall-through or any early return in the continuation). -/
theorem memory_cleanup_only_mechanism (fargs : List String) (v f : String)
    (pre post : List CStmt) (hpre : ∀ s ∈ pre, s ≠ CStmt.ret) :
    memory_cleanup__def.expand [fargs] =
      ["__attribute__", "(", "(", "cleanup", "("] ++ fargs ++ [")", ")", ")"] ∧
    (∀ d ∈ allHeaderDefs, d.name ≠ "memory_cleanup_" →
      ∀ args, d.expand args = []) ∧
    f ∈ runScope (pre ++ CStmt.declCleanup v f :: post) [] := by
  refine ⟨rfl, ?_, runScope_cleanup pre post v f hpre []⟩
  intro d hd hne args
  simp only [allHeaderDefs, List.mem_cons, List.not_mem_nil, or_false] at hd
  rcases hd with rfl | rfl | rfl | rfl | rfl | rfl | rfl | rfl | rfl | rfl
    | rfl | rfl | rfl | rfl | rfl | rfl | rfl | rfl
  all_goals first
  | rfl
  | exact absurd rfl hne

/-- Witness for claim C2 at a concrete scope: a buffer declared with
cleanup handler my_free, one ordinary call before it, an early return after
it. -/
theorem memory_cleanup_only_mechanism_witness :
    (∀ s ∈ [CStmt.call "work"], s ≠ CStmt.ret) ∧
    (memory_cleanup__def.expand [["my_free"]] =
      ["__attribute__", "(", "(", "cleanup", "("] ++ ["my_free"] ++
        [")", ")", ")"] ∧
    (∀ d ∈ allHeaderDefs, d.name ≠ "memory_cleanup_" →
      ∀ args, d.expand args = []) ∧
    "my_free" ∈ runScope
      ([CStmt.call "work"] ++ CStmt.declCleanup "buf" "my_free" ::
        [CStmt.ret]) []) :=
  ⟨by decide,
   memory_cleanup_only_mechanism ["my_free"] "buf" "my_free"
     [CStmt.call "work"] [CStmt.ret] (by decide)⟩

/-- Claim C9: each short-form macro expands exactly as its long form at
every argument list (m_g as memory_guarded, m_o as memory_owner, m_t as
memory_take_possession, m_o_ as memory_owner_of, m_rc as memory_ref_count,
m_io as memory_ptr_inout, m_out as memory_ptr_out), and the header defines
exactly the listed macros, so no short form exists for memory_keep_alive or
memory_release_after_of. -/
theorem short_forms_match_long_forms (args : List (List String)) :
    m_g_def.expand args = memory_guarded_def.expand args ∧
    m_o_def.expand args = memory_owner_def.expand args ∧
    m_t_def.expand args = memory_take_possession_def.expand args ∧
    m_o__def.expand args = memory_owner_of_def.expand args ∧
    m_rc_def.expand args = memory_ref_count_def.expand args ∧
    m_io_def.expand args = memory_ptr_inout_def.expand args ∧
    m_out_def.expand args = memory_ptr_out_def.expand args ∧
    allHeaderDefs.map HeaderDef.name =
      ["__MEMORY_NOTATION_H__",
       "memory_guarded", "memory_owner", "memory_take_possession",
       "memory_keep_alive", "memory_release_after_of", "memory_owner_of",
       "memory_ref_count", "memory_ptr_inout", "memory_ptr_out",
       "m_g", "m_o", "m_t", "m_o_", "m_rc", "m_io", "m_out",
       "memory_cleanup_"] :=
  ⟨rfl, rfl, rfl, rfl, rfl, rfl, rfl, rfl⟩

/-- Claim C10: including the header is idempotent on any preprocessor
state - the include guard makes a second inclusion contribute nothing - and
a single inclusion from a clean state defines each macro name exactly
once. -/
theorem include_guard_idempotent (s : PPState) :
    includeHeader (includeHeader s) = includeHeader s ∧
    ((includeHeader ⟨[]⟩).defs.map HeaderDef.name).Nodup := by
  constructor
  · by_cases h : isDefined s "__MEMORY_NOTATION_H__" = true
    · simp [includeHeader, h]
    · have h1 : includeHeader s = ⟨s.defs ++ allHeaderDefs⟩ := by
        simp [includeHeader, h]
      rw [h1]
      have h2 : isDefined ⟨s.defs ++ allHeaderDefs⟩ "__MEMORY_NOTATION_H__" = true := by
        simp [isDefined, allHeaderDefs, guardDef]
      simp [includeHeader, h2, h1]
  · decide

/-! Helper lemmas about the modelled verifier core. -/

/-- A successful lookup in a parameter list exhibits the pair. -/
theorem lookup_param_mem {l : List (String × AnnotationKind)} {a : String}
    {k : AnnotationKind} (h : l.lookup a = some k) : (a, k) ∈ l := by
  induction l with
  | nil => simp [List.lookup] at h
  | cons q rest ih =>
    rcases q with ⟨x, y⟩
    rw [List.lookup] at h
    cases hax : (a == x) with
    | true =>
      rw [hax] at h
      obtain rfl : y = k := by simpa using h
      obtain rfl : a = x := by simpa using hax
      exact List.mem_cons_self _ _
    | false =>
      rw [hax] at h
      exact List.mem_cons_of_mem _ (ih h)

/-- The entry state of a binding is never `Moved` and never `Released`. -/
theorem initState_not_moved_released (params : List (String × AnnotationKind))
    (x : String) :
    initState params x ≠ OwnershipState.Moved ∧
    initState params x ≠ OwnershipState.Released := by
  unfold initState
  rcases params.lookup x with _ | k
  · simp
  · cases k <;> simp [initStateOf]

/-- An operation that cannot consume a binding leaves that binding's state
unchanged. -/
theorem stepOp_state_of_not_consumes (params : List (String × AnnotationKind))
    (pid : Nat) (s : PathSt) (b : String) (op : Op)
    (h : consumesB b op = false) :
    ((stepOp params pid s op).1).state b = s.state b := by
  cases op with
  | release c =>
    have hbc : ¬ b = c := fun hh => by simp [consumesB, hh] at h
    have hcb : ¬ c = b := fun hh => hbc hh.symm
    simp only [stepOp]
    split
    · rfl
    · split <;> first | rfl | simp [updState, hbc, hcb]
  | passTakePossession c =>
    have hbc : ¬ b = c := fun hh => by simp [consumesB, hh] at h
    have hcb : ¬ c = b := fun hh => hbc hh.symm
    simp only [stepOp]
    split <;> first | rfl | simp [updState, hbc, hcb]
  | use c =>
    simp only [stepOp]
    split <;> rfl
  | assignToOwnerField c =>
    have hbc : ¬ b = c := fun hh => by simp [consumesB, hh] at h
    have hcb : ¬ c = b := fun hh => hbc hh.symm
    simp only [stepOp]
    split <;> first | rfl | simp [updState, hbc, hcb]
  | incRef c => rfl
  | decRef c => rfl

/-- A path none of whose operations can consume a binding leaves that
binding's state unchanged. -/
theorem runOps_state_of_not_consumes (params : List (String × AnnotationKind))
    (pid : Nat) (ops : List Op) (s : PathSt) (b : String)
    (h : ∀ o ∈ ops, consumesB b o = false) :
    ((runOps params pid s ops).1).state b = s.state b := by
  induction ops generalizing s with
  | nil => rfl
  | cons op rest ih =>
    have h1 := stepOp_state_of_not_consumes params pid s b op
      (h op (List.mem_cons_self op rest))
    have h2 := ih (stepOp params pid s op).1
      (fun o ho => h o (List.mem_cons_of_mem op ho))
    simpa [runOps, h1] using h2

/-- No operation ever sets a binding's state to `Owned`: the transition
table only writes `Released` and `Moved`. -/
theorem stepOp_state_not_owned (params : List (String × AnnotationKind))
    (pid : Nat) (s : PathSt) (b : String) (op : Op)
    (h : s.state b ≠ OwnershipState.Owned) :
    ((stepOp params pid s op).1).state b ≠ OwnershipState.Owned := by
  cases op with
  | release c =>
    simp only [stepOp]
    split
    · exact h
    · split <;> first
      | exact h
      | (by_cases hbc : b = c <;> simp [updState, hbc, h])
  | passTakePossession c =>
    simp only [stepOp]
    split <;> first
    | exact h
    | (by_cases hbc : b = c <;> simp [updState, hbc, h])
  | use c =>
    simp only [stepOp]
    split <;> exact h
  | assignToOwnerField c =>
    simp only [stepOp]
    split <;> first
    | exact h
    | (by_cases hbc : b = c <;> simp [updState, hbc, h])
  | incRef c => exact h
  | decRef c => exact h

/-- Along any replayed path, a binding that did not start `Owned` is never
`Owned`. -/
theorem runOps_state_not_owned (params : List (String × AnnotationKind))
    (pid : Nat) (ops : List Op) (s : PathSt) (b : String)
    (h : s.state b ≠ OwnershipState.Owned) :
    ((runOps params pid s ops).1).state b ≠ OwnershipState.Owned := by
  induction ops generalizing s with
  | nil => exact h
  | cons op rest ih =>
    have h1 := stepOp_state_not_owned params pid s b op h
    simpa [runOps] using ih (stepOp params pid s op).1 h1

/-- Each operation changes a binding's reference-count delta by exactly its
per-operation contribution. -/
theorem stepOp_delta (params : List (String × AnnotationKind)) (pid : Nat)
    (s : PathSt) (b : String) (op : Op) :
    ((stepOp params pid s op).1).delta b = s.delta b + opDeltaB b op := by
  cases op with
  | release c =>
    simp only [stepOp, opDeltaB]
    split
    · simp
    · split <;> simp
  | passTakePossession c =>
    simp only [stepOp, opDeltaB]
    split <;> simp
  | use c =>
    simp only [stepOp, opDeltaB]
    split <;> simp
  | assignToOwnerField c =>
    simp only [stepOp, opDeltaB]
    split <;> simp
  | incRef c =>
    by_cases hbc : b = c
    · subst hbc
      simp [stepOp, opDeltaB, updDelta]
    · have hcb : ¬ c = b := fun hh => hbc hh.symm
      simp [stepOp, opDeltaB, updDelta, hbc, hcb]
  | decRef c =>
    by_cases hbc : b = c
    · subst hbc
      simp [stepOp, opDeltaB, updDelta]
    · have hcb : ¬ c = b := fun hh => hbc hh.symm
      simp [stepOp, opDeltaB, updDelta, hbc, hcb]

/-- Replaying a path adds the path's net delta to a binding's entry delta. -/
theorem runOps_delta (params : List (String × AnnotationKind)) (pid : Nat)
    (ops : List Op) (s : PathSt) (b : String) :
    ((runOps params pid s ops).1).delta b = s.delta b + netDelta b ops := by
  induction ops generalizing s with
  | nil => simp [runOps, netDelta]
  | cons op rest ih =>
    have h1 := stepOp_delta params pid s b op
    have h2 := ih (stepOp params pid s op).1
    simp only [runOps, netDelta]
    rw [h2, h1]
    ring

/-- The net delta of a path is the number of increments minus the number of
decrements of the binding. -/
theorem netDelta_eq_counts (b : String) (ops : List Op) :
    netDelta b ops =
      (ops.count (Op.incRef b) : Int) - (ops.count (Op.decRef b) : Int) := by
  induction ops with
  | nil => simp [netDelta]
  | cons op rest ih =>
    cases op with
    | incRef c =>
      by_cases hcb : c = b
      · subst hcb
        simp [netDelta, opDeltaB, List.count_cons, ih]
        ring
      · simp [netDelta, opDeltaB, List.count_cons, ih, hcb]
    | decRef c =>
      by_cases hcb : c = b
      · subst hcb
        simp [netDelta, opDeltaB, List.count_cons, ih]
        ring
      · simp [netDelta, opDeltaB, List.count_cons, ih, hcb]
    | release c => simp [netDelta, opDeltaB, List.count_cons, ih]
    | passTakePossession c => simp [netDelta, opDeltaB, List.count_cons, ih]
    | use c => simp [netDelta, opDeltaB, List.count_cons, ih]
    | assignToOwnerField c => simp [netDelta, opDeltaB, List.count_cons, ih]

/-- Releasing a binding of declared kind `Guarded` reports `InvalidRelease`
whatever its current state. -/
theorem stepOp_release_guarded (params : List (String × AnnotationKind))
    (pid : Nat) (s : PathSt) (b : String)
    (hk : kindOf params b = some AnnotationKind.Guarded) :
    (stepOp params pid s (Op.release b)).2 =
      [mkErr ErrorKind.InvalidRelease b pid] := by
  simp [stepOp, hk]

/-- Every diagnostic of a replay of some operations is a diagnostic of a
replay of more operations around them. -/
theorem runOps_release_guarded_mem (params : List (String × AnnotationKind))
    (pid : Nat) (ops : List Op) (s : PathSt) (b : String)
    (hk : kindOf params b = some AnnotationKind.Guarded)
    (hin : Op.release b ∈ ops) :
    mkErr ErrorKind.InvalidRelease b pid ∈ (runOps params pid s ops).2 := by
  induction ops generalizing s with
  | nil => simp at hin
  | cons op rest ih =>
    rcases List.mem_cons.1 hin with rfl | hin2
    · have h1 := stepOp_release_guarded params pid s b hk
      simp [runOps, h1]
    · simp only [runOps, List.mem_append]
      exact Or.inr (ih (stepOp params pid s op).1 hin2)

/-- Replaying a list of pure uses from a state in which no binding is
`Moved` or `Released` changes nothing and reports nothing. -/
theorem runOps_uses (params : List (String × AnnotationKind)) (pid : Nat)
    (us : List Op) (s : PathSt)
    (hs : ∀ x, s.state x ≠ OwnershipState.Moved ∧
      s.state x ≠ OwnershipState.Released)
    (hu : ∀ o ∈ us, ∃ c, o = Op.use c) :
    runOps params pid s us = (s, []) := by
  induction us with
  | nil => rfl
  | cons op rest ih =>
    obtain ⟨c, rfl⟩ := hu op (List.mem_cons_self op rest)
    have hstep : stepOp params pid s (Op.use c) = (s, []) := by
      rcases hs c with ⟨hm, hr⟩
      cases hsc : s.state c <;> simp [stepOp, hsc] <;>
        first
        | exact absurd hsc hm
        | exact absurd hsc hr
    have ih2 := ih (fun o ho => hu o (List.mem_cons_of_mem _ ho))
    simp [runOps, hstep, ih2]

/-- Splitting a replay at a list append point. -/
theorem runOps_append (params : List (String × AnnotationKind)) (pid : Nat)
    (l1 l2 : List Op) (s : PathSt) :
    runOps params pid s (l1 ++ l2) =
      ((runOps params pid (runOps params pid s l1).1 l2).1,
       (runOps params pid s l1).2 ++
         (runOps params pid (runOps params pid s l1).1 l2).2) := by
  induction l1 generalizing s with
  | nil => simp [runOps]
  | cons op rest ih =>
    simp [runOps, ih (stepOp params pid s op).1, List.append_assoc]

/-- A state map in which no binding owns a `RefCounted` deficit and no
`Owner` binding is left `Owned` produces no exit-edge diagnostics. -/
theorem leakDiags_eq_nil (params : List (String × AnnotationKind)) (pid : Nat)
    (st : String → OwnershipState)
    (h : ∀ q ∈ params, q.2 = AnnotationKind.Owner →
      st q.1 ≠ OwnershipState.Owned) :
    leakDiags params pid st = [] := by
  rw [leakDiags, List.filterMap_eq_nil_iff]
  intro q hq
  cases hk : q.2 <;> cases hst : st q.1 <;> simp
  exact absurd hst (h q hq hk)

/-- An everywhere-zero delta map produces no underflow diagnostics. -/
theorem underflowDiags_zero (params : List (String × AnnotationKind))
    (pid : Nat) : underflowDiags params pid (fun _ => 0) = [] := by
  rw [underflowDiags, List.filterMap_eq_nil_iff]
  intro q hq
  cases hk : q.2 <;> simp

/-- A diagnostic of one enumerated path is a diagnostic of the function. -/
theorem mem_checkFunction_of_mem_checkPath (F : FnDecl) (p : ExitPath)
    (d : Diagnostic) (hp : p ∈ F.paths) (hd : d ∈ checkPath F.params p) :
    d ∈ checkFunction F := by
  rw [checkFunction, List.mem_flatten]
  exact ⟨checkPath F.params p, List.mem_map_of_mem _ hp, hd⟩

/-- Membership of a positional pair in the zip of two lists. -/
theorem get_pair_mem_zip {α β : Type} (as : List α) (bs : List β) (i : Nat)
    (h1 : i < as.length) (h2 : i < bs.length) :
    (as.get ⟨i, h1⟩, bs.get ⟨i, h2⟩) ∈ as.zip bs := by
  induction as generalizing bs i with
  | nil => simp at h1
  | cons a as ih =>
    cases bs with
    | nil => simp at h2
    | cons x bs =>
      cases i with
      | zero => exact List.mem_cons_self _ _
      | succ n =>
        exact List.mem_cons_of_mem _
          (ih bs n (by simpa using h1) (by simpa using h2))

/-- Updating a state map at a binding yields the new state there. -/
theorem updState_same (st : String → OwnershipState) (b : String)
    (v : OwnershipState) : updState st b v b = v := by
  simp [updState]

/-! Claim theorems about the modelled verifier core. -/

/-- Claim C3: for a function whose only `Owner` parameter is b, if every
exit path performs some uses and then releases b exactly once, the checker
reports zero violations for the function; and every exit path on which no
operation consumes b (no release, no ownership transfer, no assignment into
an owner field) is named in a `LeakedOwnership` diagnostic for b. -/
theorem owner_released_every_path (nm : String)
    (params : List (String × AnnotationKind)) (paths : List ExitPath)
    (b : String)
    (hb : List.lookup b params = some AnnotationKind.Owner)
    (honly : ∀ q ∈ params, q.2 = AnnotationKind.Owner → q.1 = b) :
    ((∀ p ∈ paths, ∃ us, p.ops = us ++ [Op.release b] ∧
        ∀ o ∈ us, ∃ c, o = Op.use c) →
      checkFunction ⟨nm, params, paths⟩ = []) ∧
    (∀ p ∈ paths, (∀ o ∈ p.ops, consumesB b o = false) →
      mkErr ErrorKind.LeakedOwnership b p.pathId ∈
        checkFunction ⟨nm, params, paths⟩) := by
  have hkb : kindOf params b = some AnnotationKind.Guarded → False := by
    intro hh
    rw [kindOf, hb] at hh
    simp at hh
  constructor
  · intro hall
    rw [checkFunction, List.flatten_eq_nil_iff]
    intro l hl
    rw [List.mem_map] at hl
    obtain ⟨p, hp, rfl⟩ := hl
    obtain ⟨us, hops, hus⟩ := hall p hp
    rw [checkPath, hops]
    have hus_run : runOps params p.pathId (initPathSt params) us =
        (initPathSt params, []) :=
      runOps_uses params p.pathId us _
        (fun x => initState_not_moved_released params x) hus
    have hstate : (initPathSt params).state b = OwnershipState.Owned := by
      simp [initPathSt, initState, hb, initStateOf]
    have hnotg : ¬ kindOf params b = some AnnotationKind.Guarded := hkb
    have hrel : runOps params p.pathId (initPathSt params) [Op.release b] =
        ({ initPathSt params with
            state := updState (initPathSt params).state b
              OwnershipState.Released }, []) := by
      simp [runOps, stepOp, hnotg, hstate]
    rw [runOps_append, hus_run]
    simp only []
    rw [hrel]
    simp only [List.append_nil, List.nil_append]
    have hleak : leakDiags params p.pathId
        (updState (initPathSt params).state b OwnershipState.Released) = [] := by
      apply leakDiags_eq_nil
      intro q hq hqk
      rw [honly q hq hqk, updState_same]
      simp
    have hund : underflowDiags params p.pathId (initPathSt params).delta = [] := by
      rw [underflowDiags, List.filterMap_eq_nil_iff]
      intro q hq
      cases hk : q.2 <;> simp [initPathSt]
    rw [hleak]
    simpa using hund
  · intro p hp hcons
    apply mem_checkFunction_of_mem_checkPath ⟨nm, params, paths⟩ p _ hp
    rw [checkPath]
    have hstate : ((runOps params p.pathId (initPathSt params) p.ops).1).state b =
        OwnershipState.Owned := by
      rw [runOps_state_of_not_consumes params p.pathId p.ops _ b hcons]
      simp [initPathSt, initState, hb, initStateOf]
    refine List.mem_append.2 (Or.inl (List.mem_append.2 (Or.inr ?_)))
    apply List.mem_filterMap.2
    exact ⟨(b, AnnotationKind.Owner), lookup_param_mem hb, by simp [hstate, mkErr]⟩

/-- Witness for claim C3: a function releasing its owner parameter id on its
single exit path gets no diagnostics; a function with a releasing path and
a non-releasing path gets `LeakedOwnership` for id naming path 1. -/
theorem owner_released_every_path_witness :
    checkFunction ⟨"f",
      [("id", AnnotationKind.Owner), ("name", AnnotationKind.Guarded)],
      [⟨0, [Op.use "name", Op.release "id"]⟩]⟩ = [] ∧
    mkErr ErrorKind.LeakedOwnership "id" 1 ∈
      checkFunction ⟨"f2", [("id", AnnotationKind.Owner)],
        [⟨0, [Op.release "id"]⟩, ⟨1, [Op.use "id"]⟩]⟩ :=
  ⟨(owner_released_every_path "f"
      [("id", AnnotationKind.Owner), ("name", AnnotationKind.Guarded)]
      [⟨0, [Op.use "name", Op.release "id"]⟩] "id" (by decide)
      (by decide)).1
    (by
      intro p hp
      simp only [List.mem_singleton] at hp
      subst hp
      exact ⟨[Op.use "name"], rfl, by
        intro o ho
        simp only [List.mem_singleton] at ho
        subst ho
        exact ⟨"name", rfl⟩⟩),
   (owner_released_every_path "f2" [("id", AnnotationKind.Owner)]
      [⟨0, [Op.release "id"]⟩, ⟨1, [Op.use "id"]⟩] "id" (by decide)
      (by decide)).2
    ⟨1, [Op.use "id"]⟩ (by decide) (by decide)⟩

/-- Claim C4: a release on a binding declared `Guarded` always reports
`InvalidRelease`, whatever else the function contains and whatever other
bindings exist; a release on a binding whose state is already `Released` or
`Moved` reports `InvalidRelease` at the transition; and along any replayed
path a binding declared `Guarded` is never in state `Owned`. -/
theorem guarded_release_invalid (params : List (String × AnnotationKind))
    (pid : Nat) (b : String) :
    (∀ (nm : String) (paths : List ExitPath) (p : ExitPath), p ∈ paths →
      kindOf params b = some AnnotationKind.Guarded →
      Op.release b ∈ p.ops →
      mkErr ErrorKind.InvalidRelease b p.pathId ∈
        checkFunction ⟨nm, params, paths⟩) ∧
    (∀ s : PathSt,
      s.state b = OwnershipState.Released ∨ s.state b = OwnershipState.Moved →
      (stepOp params pid s (Op.release b)).2 =
        [mkErr ErrorKind.InvalidRelease b pid]) ∧
    (∀ ops : List Op, kindOf params b = some AnnotationKind.Guarded →
      ((runOps params pid (initPathSt params) ops).1).state b ≠
        OwnershipState.Owned) := by
  refine ⟨?_, ?_, ?_⟩
  · intro nm paths p hp hk hrel
    apply mem_checkFunction_of_mem_checkPath ⟨nm, params, paths⟩ p _ hp
    rw [checkPath]
    exact List.mem_append.2 (Or.inl (List.mem_append.2 (Or.inl
      (runOps_release_guarded_mem params p.pathId p.ops _ b hk hrel))))
  · intro s hs
    rcases hs with hs | hs <;>
      by_cases hk : kindOf params b = some AnnotationKind.Guarded <;>
        simp [stepOp, hk, hs]
  · intro ops hk
    apply runOps_state_not_owned
    have hk2 : params.lookup b = some AnnotationKind.Guarded := hk
    simp [initPathSt, initState, hk2, initStateOf]

/-- Witness for claim C4: the guarded binding name of function g, released
on its only path, beside an unrelated owner binding; and a step from an
already-released state. -/
theorem guarded_release_invalid_witness :
    mkErr ErrorKind.InvalidRelease "name" 0 ∈
      checkFunction ⟨"g",
        [("name", AnnotationKind.Guarded), ("id", AnnotationKind.Owner)],
        [⟨0, [Op.release "name", Op.release "id"]⟩]⟩ ∧
    (stepOp [("name", AnnotationKind.Guarded), ("id", AnnotationKind.Owner)] 0
        ⟨fun _ => OwnershipState.Released, fun _ => 0⟩ (Op.release "name")).2 =
      [mkErr ErrorKind.InvalidRelease "name" 0] ∧
    ((runOps [("name", AnnotationKind.Guarded), ("id", AnnotationKind.Owner)] 0
        (initPathSt [("name", AnnotationKind.Guarded),
          ("id", AnnotationKind.Owner)])
        [Op.release "name", Op.release "id"]).1).state "name" ≠
      OwnershipState.Owned :=
  ⟨(guarded_release_invalid
      [("name", AnnotationKind.Guarded), ("id", AnnotationKind.Owner)] 0
      "name").1 "g" [⟨0, [Op.release "name", Op.release "id"]⟩]
      ⟨0, [Op.release "name", Op.release "id"]⟩ (by decide) (by decide)
      (by decide),
   (guarded_release_invalid
      [("name", AnnotationKind.Guarded), ("id", AnnotationKind.Owner)] 0
      "name").2.1 ⟨fun _ => OwnershipState.Released, fun _ => 0⟩ (Or.inl rfl),
   (guarded_release_invalid
      [("name", AnnotationKind.Guarded), ("id", AnnotationKind.Owner)] 0
      "name").2.2 [Op.release "name", Op.release "id"] (by decide)⟩

/-- Claim C5: a call site passing a `Guarded` actual argument into a
`TakePossession` formal parameter is reported as `BorrowEscalation`, at
whatever argument position the pair sits, and the report survives into the
whole verifier run. -/
theorem borrow_escalation_any_position (c : CallSite) (i : Nat)
    (h1 : i < c.actuals.length) (h2 : i < c.formals.length)
    (ha : (c.actuals.get ⟨i, h1⟩).2 = AnnotationKind.Guarded)
    (hf : c.formals.get ⟨i, h2⟩ = AnnotationKind.TakePossession) :
    mkErr ErrorKind.BorrowEscalation (c.actuals.get ⟨i, h1⟩).1 c.callSiteId ∈
      checkCallSite c ∧
    ∀ inp : VerifierInput, c ∈ inp.calls →
      mkErr ErrorKind.BorrowEscalation (c.actuals.get ⟨i, h1⟩).1 c.callSiteId ∈
        runVerifier inp := by
  have hmem : mkErr ErrorKind.BorrowEscalation (c.actuals.get ⟨i, h1⟩).1
      c.callSiteId ∈ checkCallSite c := by
    rw [checkCallSite]
    apply List.mem_filterMap.2
    refine ⟨(c.actuals.get ⟨i, h1⟩, c.formals.get ⟨i, h2⟩),
      get_pair_mem_zip c.actuals c.formals i h1 h2, ?_⟩
    simp only [List.get_eq_getElem] at ha hf
    simp only [List.get_eq_getElem]
    rw [ha, hf]
  refine ⟨hmem, ?_⟩
  intro inp hinp
  rw [runVerifier]
  apply List.mem_append.2
  right
  rw [List.mem_flatten]
  exact ⟨checkCallSite c, List.mem_map_of_mem _ hinp, hmem⟩

/-- Witness for claim C5: the guarded actual b at position 1 of a two
argument call site, inside a one-call verifier input. -/
theorem borrow_escalation_any_position_witness :
    mkErr ErrorKind.BorrowEscalation "b" 3 ∈
      checkCallSite ⟨3, "callee",
        [("a", AnnotationKind.Owner), ("b", AnnotationKind.Guarded)],
        [AnnotationKind.Owner, AnnotationKind.TakePossession]⟩ ∧
    ∀ inp : VerifierInput,
      (⟨3, "callee",
        [("a", AnnotationKind.Owner), ("b", AnnotationKind.Guarded)],
        [AnnotationKind.Owner, AnnotationKind.TakePossession]⟩ : CallSite) ∈
          inp.calls →
      mkErr ErrorKind.BorrowEscalation "b" 3 ∈ runVerifier inp :=
  borrow_escalation_any_position
    ⟨3, "callee", [("a", AnnotationKind.Owner), ("b", AnnotationKind.Guarded)],
     [AnnotationKind.Owner, AnnotationKind.TakePossession]⟩ 1
    (by decide) (by decide) (by decide) (by decide)

/-- Claim C6: increments and decrements of a `RefCounted` binding along one
path are an integer delta; every path whose net delta is negative is
reported as `RefCountUnderflow`; in particular a path with one increment
and two decrements of the binding is always reported. -/
theorem refcount_underflow_reported (nm : String)
    (params : List (String × AnnotationKind)) (paths : List ExitPath)
    (b : String)
    (hb : List.lookup b params = some AnnotationKind.RefCounted) :
    (∀ p ∈ paths, netDelta b p.ops < 0 →
      mkErr ErrorKind.RefCountUnderflow b p.pathId ∈
        checkFunction ⟨nm, params, paths⟩) ∧
    (∀ p ∈ paths, p.ops.count (Op.incRef b) = 1 →
      p.ops.count (Op.decRef b) = 2 →
      mkErr ErrorKind.RefCountUnderflow b p.pathId ∈
        checkFunction ⟨nm, params, paths⟩) := by
  have main : ∀ p ∈ paths, netDelta b p.ops < 0 →
      mkErr ErrorKind.RefCountUnderflow b p.pathId ∈
        checkFunction ⟨nm, params, paths⟩ := by
    intro p hp hneg
    apply mem_checkFunction_of_mem_checkPath ⟨nm, params, paths⟩ p _ hp
    rw [checkPath]
    apply List.mem_append.2
    right
    have hdelta : ((runOps params p.pathId (initPathSt params) p.ops).1).delta b =
        netDelta b p.ops := by
      rw [runOps_delta]
      simp [initPathSt]
    apply List.mem_filterMap.2
    exact ⟨(b, AnnotationKind.RefCounted), lookup_param_mem hb,
      by simp [hdelta, hneg, mkErr]⟩
  refine ⟨main, ?_⟩
  intro p hp hinc hdec
  apply main p hp
  rw [netDelta_eq_counts, hinc, hdec]
  norm_num

/-- Witness for claim C6: the refcounted binding rc incremented once then
decremented twice on the single path of function r. -/
theorem refcount_underflow_reported_witness :
    mkErr ErrorKind.RefCountUnderflow "rc" 0 ∈
      checkFunction ⟨"r", [("rc", AnnotationKind.RefCounted)],
        [⟨0, [Op.incRef "rc", Op.decRef "rc", Op.decRef "rc"]⟩]⟩ :=
  (refcount_underflow_reported "r" [("rc", AnnotationKind.RefCounted)]
      [⟨0, [Op.incRef "rc", Op.decRef "rc", Op.decRef "rc"]⟩] "rc"
      (by decide)).2
    ⟨0, [Op.incRef "rc", Op.decRef "rc", Op.decRef "rc"]⟩ (by decide)
    (by decide) (by decide)

/-- Claim C7: the checker is deterministic - its diagnostic list and its
rendered byte output are functions of the input alone, so two runs on the
same unchanged input produce byte-identical diagnostic output with
identical ordering. -/
theorem checker_run_deterministic (i j : VerifierInput) (h : i = j) :
    renderRun i = renderRun j ∧ runVerifier i = runVerifier j := by
  subst h
  exact ⟨rfl, rfl⟩

/-- Witness for claim C7: two runs on one concrete input. -/
theorem checker_run_deterministic_witness :
    renderRun ⟨[⟨"g", [("name", AnnotationKind.Guarded)],
        [⟨0, [Op.release "name"]⟩]⟩], []⟩ =
      renderRun ⟨[⟨"g", [("name", AnnotationKind.Guarded)],
        [⟨0, [Op.release "name"]⟩]⟩], []⟩ ∧
    runVerifier ⟨[⟨"g", [("name", AnnotationKind.Guarded)],
        [⟨0, [Op.release "name"]⟩]⟩], []⟩ =
      runVerifier ⟨[⟨"g", [("name", AnnotationKind.Guarded)],
        [⟨0, [Op.release "name"]⟩]⟩], []⟩ :=
  checker_run_deterministic _ _ rfl

/-- Claim C8: for every input the verifier's exit status is non-zero
exactly when at least one error-severity diagnostic was produced. -/
theorem exit_status_nonzero_iff_error (i : VerifierInput) :
    exitStatus (runVerifier i) ≠ 0 ↔
      ∃ d ∈ runVerifier i, d.severity = Severity.error := by
  have hany : ((runVerifier i).any isErrorDiag = true) ↔
      ∃ d ∈ runVerifier i, d.severity = Severity.error := by
    simp [List.any_eq_true, isErrorDiag]
  by_cases h : (runVerifier i).any isErrorDiag = true
  · simpa [exitStatus, h] using hany.1 h
  · have hne : ¬ ∃ d ∈ runVerifier i, d.severity = Severity.error :=
      fun he => h (hany.2 he)
    simp only [exitStatus, h, if_false]
    constructor
    · intro hz
      exact absurd rfl hz
    · intro he
      exact absurd he hne

end MemNotation
